import Mathlib

/-!
Verification development for the nonlocal finite-element solver.

The definitions below are shallow embeddings of the assembly engine of the
repository: the sparse-stencil indexer and the boundary handling of
`include/solvers/finite_element_solver_base.hpp`, the 1D solver of
`include/solvers/solver_1d/finite_element_solver_base_1d.hpp`, the
per-quadrature geometry precomputations of
`include/solvers/finite_element_routine.hpp`, the elasticity assembly of
`src/static_analysis.cpp`, and the SU2 reader / VTK writer of
`libraries/mesh/mesh_2d/su2_parser.hpp` and
`libraries/mesh/mesh_2d/mesh_container_2d_utils.hpp`.
Scalars are modelled by rationals; machine floating point is abstracted away
wherever the property at stake is structural rather than numeric.
-/

namespace Nonlocal

/-- Destination of a stiffness entry: the interior matrix or the
interior-times-Dirichlet coupling matrix. -/
inductive MatrixTarget : Type
  | inner : MatrixTarget
  | bound : MatrixTarget
deriving DecidableEq, Repr

/-- Routing of a single (row, col) pair, transcribed from the body of
`indexator::index` in `finite_element_solver_base.hpp` (the branch on
`_inner_nodes[row]`, `_inner_nodes[col]`, `row != col` and `row <= col`).
The routing does not depend on the pass (SHIFTS or NONZERO): the template
stage only changes the side effect performed by `stage`, never the branch
taken. `none` means the pair is dropped. -/
def indexator_route (inner_nodes : ℕ → Bool) (row col : ℕ) : Option MatrixTarget :=
  if inner_nodes row && inner_nodes col then
    if row ≤ col then some .inner else none
  else if row ≠ col then
    if !inner_nodes col then some .bound else none
  else
    some .inner

/-- Loop structure of `indexator::index`: a DoF-by-DoF block of row/col pairs
around a block row and block column, each pair routed by `indexator_route`. -/
def indexator_index (DoF : ℕ) (inner_nodes : ℕ → Bool) (block_row block_col : ℕ) :
    List (ℕ × ℕ × Option MatrixTarget) :=
  (List.range DoF).flatMap fun comp_row =>
    (List.range DoF).map fun comp_col =>
      let row := DoF * block_row + comp_row
      let col := DoF * block_col + comp_col
      (row, col, indexator_route inner_nodes row col)

/-- The stencil rules exactly as the specification words them: both interior
goes to `K_inner` iff `row ≤ col`; a diagonal pair on a first-kind DoF records
a diagonal entry in `K_inner`; an off-diagonal pair whose column is first-kind
goes to `K_bound`; an off-diagonal pair with a first-kind row and an interior
column is dropped. -/
def spec_stencil_route (inner_nodes : ℕ → Bool) (row col : ℕ) : Option MatrixTarget :=
  if inner_nodes row && inner_nodes col then
    if row ≤ col then some .inner else none
  else if row = col then
    some .inner
  else if !inner_nodes col then
    some .bound
  else
    none

/-- Boundary condition kinds of the 1D solver
(`finite_element_solver_base_1d.hpp`). -/
inductive boundary_condition_t : Type
  | FIRST_KIND : boundary_condition_t
  | SECOND_KIND : boundary_condition_t
deriving DecidableEq, Repr

/-- A stationary boundary condition pair of the 1D solver: a kind and a value
for the left and for the right end of the segment. -/
structure stationary_boundary_1d : Type where
  left : boundary_condition_t × ℚ
  right : boundary_condition_t × ℚ

/-- The pure-Neumann test of `finite_element_solver_base_1d::stationary`:
both boundary conditions are of the second kind. -/
def neumann_task (bc : stationary_boundary_1d) : Bool :=
  decide (bc.left.1 = .SECOND_KIND) && decide (bc.right.1 = .SECOND_KIND)

/-- Front part of `finite_element_solver_base_1d::stationary`: the
compatibility check (`bound_cond[0].second + bound_cond[1].second > 1e-5`
on a pure-Neumann problem throws), the system size
`nodes_count + neumann_task`, the external conjugate-gradient solve
(abstracted as `solve`, which receives the system size), and the final
truncation of the solution to the first `nodes_count` entries. -/
def stationary (nodes_count : ℕ) (bc : stationary_boundary_1d)
    (solve : ℕ → List ℚ) : Except String (List ℚ) :=
  if neumann_task bc && decide (bc.left.2 + bc.right.2 > 1 / 100000) then
    .error "The problem is unsolvable. Contour integral != 0."
  else
    let size := nodes_count + (if neumann_task bc then 1 else 0)
    let temperature := solve size
    .ok (temperature.take nodes_count)

/-- A pure-Neumann condition pair whose fluxes are both negative: the sum is
-2, whose absolute value is far above the 1e-5 tolerance. -/
def bc_negative_flux : stationary_boundary_1d :=
  ⟨(.SECOND_KIND, -1), (.SECOND_KIND, -1)⟩

/-- A pure-Neumann condition pair whose fluxes cancel. -/
def bc_cancelling_flux : stationary_boundary_1d :=
  ⟨(.SECOND_KIND, 1), (.SECOND_KIND, -1)⟩

/-- State transition of `finite_element_solver_base::set_mesh`: a null
argument throws `std::invalid_argument` and the member keeps its previous
value; otherwise the member is replaced. The returned pair is the new state
and the raised error, if any. -/
def set_mesh {P : Type} (cur : Option P) (arg : Option P) :
    Option P × Option String :=
  match arg with
  | none => (cur, some "mesh_proxy is null")
  | some p => (some p, none)

/-- The constructor of `finite_element_solver_base`: the member starts empty
and the constructor body delegates to `set_mesh`; a raised error aborts
construction. -/
def solver_construct {P : Type} (arg : Option P) : Except String (Option P) :=
  match set_mesh (P := P) none arg with
  | (st, none) => .ok st
  | (_, some e) => .error e

/-- A one-dimensional quadrature: reference nodes, weights and the reference
interval, as consumed by `element_1d_integrate::set`. -/
structure quadrature_1d : Type where
  qnodes : List ℚ
  qweights : List ℚ
  left : ℚ
  right : ℚ

/-- Precomputed tables of a 1D integration element, mirroring the data
members of `element_1d_integrate` in `element_integrate.hpp`: weights and the
shape-function and derivative tables in row-major layout
`i * qnodes_count + q`. -/
structure element_1d_integrate : Type where
  nc : ℕ
  weights : List ℚ
  NInQuad : List ℚ
  NxiInQuad : List ℚ

/-- `element_1d_integrate::nodes_count`. -/
def element_1d_integrate.nodes_count (el : element_1d_integrate) : ℕ := el.nc

/-- `element_1d_integrate::qnodes_count`: the size of the weight table. -/
def element_1d_integrate.qnodes_count (el : element_1d_integrate) : ℕ := el.weights.length

/-- `element_1d_integrate::weight`. -/
def element_1d_integrate.weight (el : element_1d_integrate) (q : ℕ) : ℚ := el.weights.getD q 0

/-- `element_1d_integrate::qN`. -/
def element_1d_integrate.qN (el : element_1d_integrate) (i q : ℕ) : ℚ :=
  el.NInQuad.getD (i * el.qnodes_count + q) 0

/-- `element_1d_integrate::qNxi`. -/
def element_1d_integrate.qNxi (el : element_1d_integrate) (i q : ℕ) : ℚ :=
  el.NxiInQuad.getD (i * el.qnodes_count + q) 0

/-- `element_1d_integrate::set` from `element_integrate.hpp`: remaps the
incoming quadrature affinely onto the element's reference segment, folds the
remap Jacobian into the weights, and tabulates the shape functions `N` and
their derivatives `Nxi` at the remapped quadrature nodes. The virtual shape
functions are passed in as `N` and `Nxi`. -/
def element_1d_set (N Nxi : ℕ → ℚ → ℚ) (nodes_count : ℕ) (el_left el_right : ℚ)
    (quad : quadrature_1d) : element_1d_integrate :=
  let jacobian := (el_right - el_left) / (quad.right - quad.left)
  let xi := quad.qnodes.map fun qn => el_left + (qn - quad.left) * jacobian
  { nc := nodes_count
    weights := quad.qweights.map (· * jacobian)
    NInQuad := (List.range nodes_count).flatMap fun i => xi.map fun x => N i x
    NxiInQuad := (List.range nodes_count).flatMap fun i => xi.map fun x => Nxi i x }

/-- `finite_element_solver_base_1d::integrate_basic_pair` exactly as written:
the quadrature loop runs to `nodes_count`, not `qnodes_count`, and the result
is scaled by the mesh Jacobian. -/
def integrate_basic_pair (el : element_1d_integrate) (mesh_jacobian : ℚ) (i j : ℕ) : ℚ :=
  (((List.range el.nodes_count).map fun q => el.weight q * el.qN i q * el.qN j q).sum)
    * mesh_jacobian

/-- The heat-capacity local rule as the specification states it: the sum over
all of the element's quadrature nodes of `weight(q) * qN(i,q) * qN(j,q)`,
scaled by the Jacobian. -/
def integrate_basic_pair_quadrature (el : element_1d_integrate) (mesh_jacobian : ℚ)
    (i j : ℕ) : ℚ :=
  (((List.range el.qnodes_count).map fun q => el.weight q * el.qN i q * el.qN j q).sum)
    * mesh_jacobian

/-- `finite_element_solver_base_1d::integrate_basic`: the single-shape-function
volume integral; its loop correctly runs to `qnodes_count`. -/
def integrate_basic (el : element_1d_integrate) (mesh_jacobian : ℚ) (i : ℕ) : ℚ :=
  (((List.range el.qnodes_count).map fun q => el.weight q * el.qN i q).sum) * mesh_jacobian

/-- `finite_element_solver_base_1d::integrate_loc`: the local stiffness rule,
divided by the mesh Jacobian. -/
def integrate_loc (el : element_1d_integrate) (mesh_jacobian : ℚ) (i j : ℕ) : ℚ :=
  (((List.range el.qnodes_count).map fun q => el.weight q * el.qNxi i q * el.qNxi j q).sum)
    / mesh_jacobian

/-- Linear 1D shape functions on the reference segment [-1, 1]; concrete
input data for evaluating the integration rules. -/
def linear_N : ℕ → ℚ → ℚ := fun i x => if i = 0 then (1 - x) / 2 else (1 + x) / 2

/-- Derivatives of the linear 1D shape functions. -/
def linear_Nxi : ℕ → ℚ → ℚ := fun i _ => if i = 0 then -(1 / 2) else 1 / 2

/-- A three-node quadrature on [-1, 1] (concrete test input). -/
def quad_three_nodes : quadrature_1d :=
  ⟨[-(1 / 2), 0, 1 / 2], [2 / 3, 2 / 3, 2 / 3], -1, 1⟩

/-- The one-point Gauss quadrature on [-1, 1]. -/
def quad_one_node : quadrature_1d := ⟨[0], [2], -1, 1⟩

/-- A linear element tabulated at the three-node quadrature: two shape
functions, three quadrature nodes. -/
def linear_el_three_q : element_1d_integrate :=
  element_1d_set linear_N linear_Nxi 2 (-1) 1 quad_three_nodes

/-- A linear element tabulated at the one-point Gauss quadrature: two shape
functions, one quadrature node (the 1D solver's default configuration). -/
def linear_el_one_q : element_1d_integrate :=
  element_1d_set linear_N linear_Nxi 2 (-1) 1 quad_one_node

/-- The closed set of 2D element tags read from SU2 and written to VTK. -/
inductive element_2d_t : Type
  | TRIANGLE : element_2d_t
  | QUADRATIC_TRIANGLE : element_2d_t
  | BILINEAR : element_2d_t
  | QUADRATIC_SERENDIPITY : element_2d_t
  | QUADRATIC_LAGRANGE : element_2d_t
deriving DecidableEq, Repr

/-- The index sequence of `read_element<K...>` per element type in
`mesh_container_2d::read_elements_2d` (`su2_parser.hpp`): the k-th file token
is stored into local slot `K_k`. -/
def su2_read_order : element_2d_t → List ℕ
  | .TRIANGLE => [0, 1, 2]
  | .QUADRATIC_TRIANGLE => [0, 1, 2, 3, 4, 5]
  | .BILINEAR => [0, 1, 2, 3]
  | .QUADRATIC_SERENDIPITY => [0, 2, 4, 6, 1, 3, 5, 7]
  | .QUADRATIC_LAGRANGE => [0, 2, 4, 6, 1, 3, 5, 7, 8]

/-- The index sequence of `write_element` per element type in
`mesh::utils::save_as_vtk` (`mesh_container_2d_utils.hpp`): the k-th emitted
token is the stored slot `K_k`. -/
def vtk_write_order : element_2d_t → List ℕ
  | .TRIANGLE => [0, 1, 2]
  | .QUADRATIC_TRIANGLE => [0, 1, 2, 3, 4, 5]
  | .BILINEAR => [0, 1, 2, 3]
  | .QUADRATIC_SERENDIPITY => [0, 2, 4, 6, 1, 3, 5, 7]
  | .QUADRATIC_LAGRANGE => [0, 2, 4, 6, 1, 3, 5, 7, 8]

/-- `mesh_container_2d::read_element<K...>`: sequential file tokens scattered
into the element vector at the positions of the index sequence. -/
def read_element (ks : List ℕ) (file_tokens : List ℕ) : List ℕ :=
  (ks.zip file_tokens).foldl (fun acc kt => acc.set kt.1 kt.2) (List.replicate ks.length 0)

/-- `save_as_vtk`'s `write_element`: the stored slots gathered in the order of
the index sequence. -/
def write_element (ks : List ℕ) (stored : List ℕ) : List ℕ :=
  ks.map fun k => stored.getD k 0

/-- A boundary group of the 2D mesh together with its boundary condition:
the global node numbers of each of its 1D elements
(`mesh.node_number(b, el, i)`), the per-component condition kind
(`bounds_cond[b].type(comp)`) and the per-component value at a DoF slot
(the composite `bounds_cond[b].func(comp)(mesh.node(node))` of
`boundary_condition_first_kind`). -/
structure boundary_group_2d : Type where
  element_nodes : List (List ℕ)
  kind : ℕ → boundary_condition_t
  value : ℕ → ℕ → ℚ

/-- The sequence of Dirichlet writes attempted by the first pass of
`finite_element_solver_base::boundary_condition_first_kind`, in the traversal
order of `boundary_nodes_run`: groups in enumeration order, then elements,
then local nodes, then components; only first-kind components produce a
visit, carrying the slot `DoF * node + comp` and the group's value there. -/
def first_kind_visits (DoF : ℕ) (groups : List boundary_group_2d) : List (ℕ × ℚ) :=
  groups.flatMap fun g =>
    g.element_nodes.flatMap fun el =>
      el.flatMap fun node_number =>
        (List.range DoF).filterMap fun comp =>
          if g.kind comp = .FIRST_KIND then
            some (DoF * node_number + comp, g.value comp (DoF * node_number + comp))
          else none

/-- The write-if-zero fold of that first pass: `x` starts as zeros and each
visit assigns its value only when the slot still holds zero
(`if (x[node] == 0) x[node] = ...` in the source). -/
def fill_dirichlet (len : ℕ) (visits : List (ℕ × ℚ)) : List ℚ :=
  visits.foldl (fun x v => if x.getD v.1 0 = 0 then x.set v.1 v.2 else x)
    (List.replicate len 0)

/-- The Dirichlet value vector `x` built by
`boundary_condition_first_kind`. -/
def boundary_condition_first_kind_x (DoF len : ℕ) (groups : List boundary_group_2d) :
    List ℚ :=
  fill_dirichlet len (first_kind_visits DoF groups)

/-- First nonzero element of a list of rationals, or zero. -/
def first_nonzero : List ℚ → ℚ
  | [] => 0
  | v :: rest => if v = 0 then first_nonzero rest else v

/-- A first-kind group on node 0 whose value function returns 0. -/
def group_zero_value : boundary_group_2d :=
  ⟨[[0]], fun _ => .FIRST_KIND, fun _ _ => 0⟩

/-- A first-kind group on node 0 whose value function returns 5. -/
def group_five_value : boundary_group_2d :=
  ⟨[[0]], fun _ => .FIRST_KIND, fun _ _ => 5⟩

/-- Routing of one (row, col) pair in the elasticity assembly: `counter_loc`
of `mesh_analysis` and `filler_loc` of `triplets_fill` in
`static_analysis.cpp` both keep only pairs with `row >= col`; of those, a
both-interior pair goes to the main matrix, an off-diagonal pair with a
constrained node goes to the bound matrix, and a constrained diagonal is
skipped (its unit diagonal is emitted separately). -/
def elastic_route (inner_nodes : ℕ → Bool) (row col : ℕ) : Option MatrixTarget :=
  if row ≥ col then
    if inner_nodes row && inner_nodes col then some .inner
    else if row ≠ col then some .bound
    else none
  else none

/-- The (row, col) pairs stored into the main elasticity matrix by one local
element pass: `mesh_run_loc` iterates every shape-function pair (i, j) and
the lambda of `triplets_fill` tries the four (projection, form) component
combinations; `node_numbers` is the element's global node list. -/
def elastic_element_inner_entries (inner_nodes : ℕ → Bool) (node_numbers : List ℕ) :
    List (ℕ × ℕ) :=
  (List.range node_numbers.length).flatMap fun i =>
    (List.range node_numbers.length).flatMap fun j =>
      (List.range 2).flatMap fun proj =>
        (List.range 2).filterMap fun form =>
          let row := 2 * node_numbers.getD i 0 + proj
          let col := 2 * node_numbers.getD j 0 + form
          if elastic_route inner_nodes row col = some .inner then some (row, col)
          else none

/-- `finite_element_solver_base::sort_indices`: every CSR row's column index
list is sorted ascending. -/
def sort_indices (K : List (List ℕ)) : List (List ℕ) :=
  K.map (List.insertionSort (· ≤ ·))

/-- A 2D integration element as consumed by the geometry precomputations: its
global node numbers and its precomputed quadrature tables. -/
structure element_2d_model : Type where
  node_numbers : List ℕ
  qnodes_count : ℕ
  qN : ℕ → ℕ → ℚ
  qNxi : ℕ → ℕ → ℚ
  qNeta : ℕ → ℕ → ℚ

/-- A default element, used only as the out-of-range placeholder of list
reads. -/
def element_2d_dflt : element_2d_model :=
  ⟨[], 0, fun _ _ => 0, fun _ _ => 0, fun _ _ => 0⟩

/-- A 2D mesh as consumed by the geometry precomputations: node coordinates
and the 2D elements. -/
structure mesh_2d_model : Type where
  nodes : List (ℚ × ℚ)
  elements : List element_2d_model

/-- Incremental form of `quadrature_shifts_init`: `shifts[0] = acc` and
`shifts[el+1] = shifts[el] + qnodes_count(el)`. -/
def shifts_from (acc : ℕ) : List element_2d_model → List ℕ
  | [] => [acc]
  | e :: rest => acc :: shifts_from (acc + e.qnodes_count) rest

/-- `quadrature_shifts_init` of `finite_element_routine.hpp`: the prefix sums
of the per-element quadrature node counts, starting at zero. -/
def quadrature_shifts_init (mesh : mesh_2d_model) : List ℕ :=
  shifts_from 0 mesh.elements

/-- The entry `approx_all_quad_nodes` computes for quadrature node `q` of
element `e`: the global coordinate `Σ_i node(node_number(e,i)) * qN(i,q)`,
componentwise (the `+=` accumulation over shape functions of the source,
folded into one sum since every `i` targets the same slot). -/
def element_quad_coord (mesh : mesh_2d_model) (e : element_2d_model) (q : ℕ) : ℚ × ℚ :=
  (((List.range e.node_numbers.length).map fun i =>
      (mesh.nodes.getD (e.node_numbers.getD i 0) (0, 0)).1 * e.qN i q).sum,
   ((List.range e.node_numbers.length).map fun i =>
      (mesh.nodes.getD (e.node_numbers.getD i 0) (0, 0)).2 * e.qN i q).sum)

/-- The entry `approx_all_jacobi_matrices` computes for quadrature node `q`
of element `e`: the 2x2 Jacobi matrix `((J00, J01), (J10, J11))` accumulated
from the node coordinates against `qNxi` and `qNeta`. -/
def element_jacobi_matrix (mesh : mesh_2d_model) (e : element_2d_model) (q : ℕ) :
    (ℚ × ℚ) × (ℚ × ℚ) :=
  ((((List.range e.node_numbers.length).map fun i =>
        (mesh.nodes.getD (e.node_numbers.getD i 0) (0, 0)).1 * e.qNxi i q).sum,
    ((List.range e.node_numbers.length).map fun i =>
        (mesh.nodes.getD (e.node_numbers.getD i 0) (0, 0)).1 * e.qNeta i q).sum),
   (((List.range e.node_numbers.length).map fun i =>
        (mesh.nodes.getD (e.node_numbers.getD i 0) (0, 0)).2 * e.qNxi i q).sum,
    ((List.range e.node_numbers.length).map fun i =>
        (mesh.nodes.getD (e.node_numbers.getD i 0) (0, 0)).2 * e.qNeta i q).sum))

/-- The inner quadrature loop of the precomputations: the entries of one
element written one after another from its shift offset
(`coords[shifts[el]+q] = ...`). -/
def write_element_entries {V : Type} (entry : ℕ → V) (offset : ℕ) :
    ℕ → List V → List V
  | 0, buf => buf
  | Nat.succ q, buf => (write_element_entries entry offset q buf).set (offset + q) (entry q)

/-- The outer element loop of the precomputations: elements processed in
order, element `el` writing its entries at `shifts[el]`. -/
def write_elements {V : Type} (entry : element_2d_model → ℕ → V) (shifts : List ℕ) :
    List element_2d_model → ℕ → List V → List V
  | [], _, buf => buf
  | e :: rest, el, buf =>
      write_elements entry shifts rest (el + 1)
        (write_element_entries (entry e) (shifts.getD el 0) e.qnodes_count buf)

/-- The shared shape of `approx_all_quad_nodes` and
`approx_all_jacobi_matrices` in `finite_element_routine.hpp` (and of the
generic `approx_in_all_quad_nodes` of `mesh_container_2d_utils.hpp`): throw
when the shift vector's size differs from `elements_count + 1`, otherwise
allocate a buffer of the last shift's size and scatter every element's
per-quadrature entries at its shift offset. -/
def approx_in_all_quad_nodes {V : Type} (init : V) (mesh : mesh_2d_model)
    (shifts : List ℕ) (entry : element_2d_model → ℕ → V) : Except String (List V) :=
  if mesh.elements.length + 1 ≠ shifts.length then
    .error "The number of quadrature shifts and elements does not match."
  else
    .ok (write_elements entry shifts mesh.elements 0
      (List.replicate (shifts.getD (shifts.length - 1) 0) init))

/-- `approx_all_quad_nodes`: the global coordinates of all quadrature
nodes. -/
def approx_all_quad_nodes (mesh : mesh_2d_model) (shifts : List ℕ) :
    Except String (List (ℚ × ℚ)) :=
  approx_in_all_quad_nodes (0, 0) mesh shifts (element_quad_coord mesh)

/-- `approx_all_jacobi_matrices`: the Jacobi matrices at all quadrature
nodes. -/
def approx_all_jacobi_matrices (mesh : mesh_2d_model) (shifts : List ℕ) :
    Except String (List ((ℚ × ℚ) × (ℚ × ℚ))) :=
  approx_in_all_quad_nodes ((0, 0), (0, 0)) mesh shifts (element_jacobi_matrix mesh)

/-- A concrete element with one quadrature node (witness data). -/
def el_one_qnode : element_2d_model :=
  ⟨[0], 1, fun _ _ => 1, fun _ _ => 0, fun _ _ => 0⟩

/-- A concrete element with two quadrature nodes (witness data). -/
def el_two_qnodes : element_2d_model :=
  ⟨[0], 2, fun _ _ => 1, fun _ _ => 0, fun _ _ => 0⟩

/-- A concrete two-element mesh (witness data). -/
def mesh_two_elements : mesh_2d_model :=
  ⟨[(0, 0)], [el_one_qnode, el_two_qnodes]⟩

/-- Row entry counts produced by the count-setting loop of
`finite_element_solver_base_1d::create_matrix_portrait` before the prefix
sum: row `e*(n-1)+i+1` receives `1` when it is a first-kind boundary row and
otherwise `(right_neighbour(e)-e)*(n-1) - i + 1 - last_node_first_kind`;
overlapping rows are overwritten by later elements exactly as in the source
loop. On a pure-Neumann task every row additionally gains the augmentation
column. -/
def portrait_row_counts (E n nodes_count : ℕ) (rn : ℕ → ℕ)
    (bfk_front bfk_back neumann : Bool) : List ℕ :=
  let rows := nodes_count + (if neumann then 1 else 0)
  let base :=
    (List.range E).foldl (fun buf e =>
      (List.range n).foldl (fun buf i =>
        let row := e * (n - 1) + i + 1
        let cnt :=
          if (bfk_front && row == 1) || (bfk_back && row == nodes_count) then 1
          else
            let last_node_first_kind := bfk_back && (rn e * (n - 1) == nodes_count - 1)
            ((rn e - e) * (n - 1) - i + 1) - (if last_node_first_kind then 1 else 0)
        buf.set row cnt) buf)
      (List.replicate (rows + 1) 0)
  if neumann then
    (List.range rows).foldl (fun buf row => buf.set (row + 1) (buf.getD (row + 1) 0 + 1)) base
  else base

/-- Modelled from the spec: the 1D mesh (class `mesh_1d`, not among the
sources) is a uniform grid whose element-local to global node map is
`node_number(e, i) = e*(n-1)+i` — the same formula `create_matrix_portrait`
uses for its row indices — and `node_elements(node)` enumerates the incident
(element, local index) pairs of a node. -/
def node_elements_1d (E n node : ℕ) : List (ℕ × ℕ) :=
  (List.range E).flatMap fun e =>
    (List.range n).filterMap fun i =>
      if e * (n - 1) + i = node then some (e, i) else none

/-- The local pass of `finite_element_solver_base_1d::calc_matrix`:
`mesh_run<LOCAL>` iterates every node, its incident elements and all shape
functions; with the Dirichlet separation commented out, every pair with
`row ≤ col` accumulates the local integral into `K_inner`, first-kind
boundary rows included. This returns the total accumulated at (row, col);
`row` equals the traversal node because `(e, i)` ranges over the node's
incident pairs. -/
def calc_matrix_local_contribution (E n : ℕ) (integrate_rule_loc : ℕ → ℕ → ℕ → ℚ)
    (row col : ℕ) : ℚ :=
  ((List.range (E * (n - 1) + 1)).flatMap fun node =>
    (node_elements_1d E n node).flatMap fun ei =>
      (List.range n).filterMap fun j =>
        if node = row ∧ ei.1 * (n - 1) + j = col ∧ node ≤ ei.1 * (n - 1) + j then
          some (integrate_rule_loc ei.1 ei.2 j)
        else none).sum

/-- The stationary local integration rule with conductivity 3 and local
weight 1 on a one-element mesh over [0, 1]: `factor * integrate_loc` with the
mesh Jacobian h/2 = 1/2 (the uniform 1D mesh Jacobian is modelled from the
spec; `mesh_1d` is not among the sources). -/
def heat_rule_loc : ℕ → ℕ → ℕ → ℚ :=
  fun _ i j => 3 * integrate_loc linear_el_one_q (1 / 2) i j

end Nonlocal

namespace Nonlocal

/-- C1: for every degree-of-freedom pair visited during either assembly pass,
the indexer routes the entry by the stencil rules of the specification: both
interior goes to `K_inner` exactly when `row ≤ col`; `row ≠ col` with a
first-kind column goes to `K_bound`; `row ≠ col` with a first-kind row and an
interior column is dropped; `row = col` on a first-kind DoF records a
diagonal entry in `K_inner`. The loop of `indexator::index` routes every
visited pair by exactly this rule. -/
theorem C1_indexator_routes_by_stencil :
    (∀ (inner_nodes : ℕ → Bool) (row col : ℕ),
      indexator_route inner_nodes row col = spec_stencil_route inner_nodes row col) ∧
    (∀ (DoF : ℕ) (inner_nodes : ℕ → Bool) (block_row block_col : ℕ),
      ∀ e ∈ indexator_index DoF inner_nodes block_row block_col,
        e.2.2 = spec_stencil_route inner_nodes e.1 e.2.1) := by
  constructor
  · intro inner_nodes row col
    unfold indexator_route spec_stencil_route
    rcases h : inner_nodes row && inner_nodes col with _ | _
    · simp only [h, Bool.false_eq_true, if_false]
      by_cases hrc : row = col <;> simp [hrc]
    · simp [h]
  · intro DoF inner_nodes block_row block_col e he
    unfold indexator_index at he
    simp only [List.mem_flatMap, List.mem_map, List.mem_range] at he
    obtain ⟨cr, _, cc, _, rfl⟩ := he
    simp only
    unfold indexator_route spec_stencil_route
    rcases h : inner_nodes (DoF * block_row + cr) && inner_nodes (DoF * block_col + cc) with _ | _
    · simp only [h, Bool.false_eq_true, if_false]
      by_cases hrc : DoF * block_row + cr = DoF * block_col + cc <;> simp [hrc]
    · simp [h]

/-- C1 witness: the routing agreement evaluated at a concrete visited pair of
a two-DoF block. -/
theorem C1_witness :
    (2, 3, indexator_route (fun n => decide (n ≠ 3)) 2 3).2.2
      = spec_stencil_route (fun n => decide (n ≠ 3)) 2 3 :=
  C1_indexator_routes_by_stencil.2 2 (fun n => decide (n ≠ 3)) 1 1
    (2, 3, indexator_route (fun n => decide (n ≠ 3)) 2 3) (by decide)

/-- C2 counterexample: the pure-Neumann problem with fluxes -1 and -1 has a
flux sum of norm 2, far above the 1e-5 tolerance, so the claim demands
rejection; yet `stationary` accepts it, because the code compares the signed
sum, not its norm, against the tolerance. -/
theorem C2_counterexample_negative_flux_accepted :
    (stationary 2 bc_negative_flux (fun n => List.replicate n 0)
        = .ok [0, 0]) ∧
    ¬ |((-1 : ℚ) + -1)| < 1 / 100000 := by
  constructor
  · have hcond : (neumann_task bc_negative_flux
        && decide (bc_negative_flux.left.2 + bc_negative_flux.right.2 > 1 / 100000)) = false := by
      simp only [neumann_task, bc_negative_flux, Bool.and_eq_false_iff, decide_eq_false_iff_not]
      right
      norm_num
    unfold stationary
    rw [if_neg (by rw [hcond]; exact Bool.false_ne_true)]
    rfl
  · norm_num

/-- C2 (amended): a stationary 1D problem is rejected with the unsolvable
Neumann error exactly when every boundary condition is of the second kind and
the signed sum of the two flux values exceeds 1e-5; no absolute value is
taken, so an arbitrarily negative net flux is accepted. -/
theorem C2_amended_rejection_iff (nodes_count : ℕ) (bc : stationary_boundary_1d)
    (solve : ℕ → List ℚ) :
    stationary nodes_count bc solve
        = .error "The problem is unsolvable. Contour integral != 0."
      ↔ (neumann_task bc = true ∧ bc.left.2 + bc.right.2 > 1 / 100000) := by
  unfold stationary
  constructor
  · intro he
    by_cases h : neumann_task bc && decide (bc.left.2 + bc.right.2 > 1 / 100000)
    · simpa only [Bool.and_eq_true, decide_eq_true_eq] using h
    · rw [if_neg h] at he
      exact absurd he (by simp)
  · intro hc
    have h : (neumann_task bc && decide (bc.left.2 + bc.right.2 > 1 / 100000)) = true := by
      simp only [Bool.and_eq_true, decide_eq_true_eq]
      exact hc
    rw [if_pos h]

/-- C9: whenever the 1D stationary solver returns a result, that result holds
exactly `nodes_count` values: on a pure-Neumann problem the internal system is
enlarged to `nodes_count + 1` unknowns, and the extra augmentation unknown is
discarded by the final truncation. The hypothesis is the contract of the
external solver: it returns a vector of the system's size. -/
theorem C9_stationary_result_length (nodes_count : ℕ) (bc : stationary_boundary_1d)
    (solve : ℕ → List ℚ) (hsolve : ∀ n, (solve n).length = n) (out : List ℚ)
    (hok : stationary nodes_count bc solve = .ok out) :
    out.length = nodes_count := by
  unfold stationary at hok
  by_cases h : neumann_task bc && decide (bc.left.2 + bc.right.2 > 1 / 100000)
  · rw [if_pos h] at hok
    exact absurd hok (by simp)
  · rw [if_neg h] at hok
    simp only [Except.ok.injEq] at hok
    subst hok
    rw [List.length_take, hsolve]
    by_cases hn : neumann_task bc <;> simp [hn]

/-- C9 witness: the accepted pure-Neumann problem with cancelling fluxes on a
three-node mesh solves a four-unknown augmented system and returns exactly
three temperature values. -/
theorem C9_witness :
    ([(0 : ℚ), 0, 0]).length = 3 :=
  C9_stationary_result_length 3 bc_cancelling_flux (fun n => List.replicate n 0)
    (by intro n; simp) [0, 0, 0] (by
      have hcond : (neumann_task bc_cancelling_flux
          && decide (bc_cancelling_flux.left.2 + bc_cancelling_flux.right.2 > 1 / 100000)) = false := by
        simp only [neumann_task, bc_cancelling_flux, Bool.and_eq_false_iff, decide_eq_false_iff_not]
        right
        norm_num
      unfold stationary
      rw [if_neg (by rw [hcond]; exact Bool.false_ne_true)]
      rfl)

/-- C10: `set_mesh` raises an error on a null proxy and leaves the stored
proxy unchanged in that case; on a non-null proxy it stores it without error.
The constructor therefore succeeds exactly on non-null arguments, every
successfully constructed solver holds a non-null proxy, and a solver that
holds a non-null proxy keeps holding one across any further `set_mesh` call,
so no assembly operation can observe a missing proxy. -/
theorem C10_set_mesh_null_proxy :
    (∀ (P : Type) (cur : Option P),
      set_mesh cur none = (cur, some "mesh_proxy is null")) ∧
    (∀ (P : Type) (cur : Option P) (p : P),
      set_mesh cur (some p) = (some p, none)) ∧
    (∀ (P : Type) (arg : Option P),
      (solver_construct arg).isOk = arg.isSome) ∧
    (∀ (P : Type) (arg : Option P) (st : Option P),
      solver_construct arg = .ok st → st.isSome = true) ∧
    (∀ (P : Type) (cur arg : Option P),
      cur.isSome = true → ((set_mesh cur arg).1).isSome = true) := by
  refine ⟨fun P cur => rfl, fun P cur p => rfl, fun P arg => ?_, ?_, ?_⟩
  · cases arg <;> rfl
  · intro P arg st h
    cases arg with
    | none => exact absurd h (by simp [solver_construct, set_mesh])
    | some p =>
        simp only [solver_construct, set_mesh, Except.ok.injEq] at h
        subst h
        rfl
  · intro P cur arg hcur
    cases arg with
    | none => simpa [set_mesh] using hcur
    | some p => rfl

/-- C10 witness: the preservation clauses evaluated on a concrete solver whose
proxy is the token `0`, re-targeted to the token `1`. -/
theorem C10_witness :
    (some (0 : ℕ)).isSome = true ∧
    ((set_mesh (some (0 : ℕ)) (some 1)).1).isSome = true :=
  ⟨C10_set_mesh_null_proxy.2.2.2.1 ℕ (some 0) (some 0) rfl,
   C10_set_mesh_null_proxy.2.2.2.2 ℕ (some 0) (some 1) rfl⟩

/-- C4: the 1D heat-capacity local rule evaluates its quadrature loop over
`nodes_count` terms instead of `qnodes_count`, so on a linear element
tabulated at a three-node quadrature the code's value differs from the
quadrature sum over all quadrature nodes demanded by the claim. The sibling
`integrate_basic` in the same file loops over `qnodes_count`, so the bound is
a slip of the code. -/
theorem C4_mass_rule_wrong_loop_bound :
    integrate_basic_pair linear_el_three_q 1 0 0 = 13 / 24 ∧
    integrate_basic_pair_quadrature linear_el_three_q 1 0 0 = 7 / 12 ∧
    ¬ integrate_basic_pair linear_el_three_q 1 0 0
        = integrate_basic_pair_quadrature linear_el_three_q 1 0 0 := by
  have h1 : integrate_basic_pair linear_el_three_q 1 0 0 = 13 / 24 := by
    simp only [integrate_basic_pair, linear_el_three_q, element_1d_set, quad_three_nodes,
      element_1d_integrate.nodes_count, element_1d_integrate.qnodes_count,
      element_1d_integrate.weight, element_1d_integrate.qN, linear_N]
    norm_num [List.range_succ]
  have h2 : integrate_basic_pair_quadrature linear_el_three_q 1 0 0 = 7 / 12 := by
    simp only [integrate_basic_pair_quadrature, linear_el_three_q, element_1d_set,
      quad_three_nodes, element_1d_integrate.qnodes_count,
      element_1d_integrate.weight, element_1d_integrate.qN, linear_N]
    norm_num [List.range_succ]
  refine ⟨h1, h2, ?_⟩
  rw [h1, h2]
  norm_num

/-- Helper: `getD` after `set` at a different position is unchanged. -/
theorem helper_getD_set_ne {α : Type} (l : List α) (i j : ℕ) (v d : α) (h : i ≠ j) :
    (l.set i v).getD j d = l.getD j d := by
  induction l generalizing i j with
  | nil => rfl
  | cons a t ih =>
      cases i with
      | zero =>
          cases j with
          | zero => exact absurd rfl h
          | succ j => rfl
      | succ i =>
          cases j with
          | zero => rfl
          | succ j => exact ih i j (fun he => h (by rw [he]))

/-- Helper: `getD` after `set` at the same in-range position yields the new
value. -/
theorem helper_getD_set_self {α : Type} (l : List α) (i : ℕ) (v d : α) (h : i < l.length) :
    (l.set i v).getD i d = v := by
  induction l generalizing i with
  | nil => exact absurd h (by simp)
  | cons a t ih =>
      cases i with
      | zero => rfl
      | succ i => exact ih i (by simpa using h)

/-- Helper: a fold of `set` operations whose keys all avoid `idx` leaves
position `idx` unchanged. -/
theorem helper_foldl_set_untouched {α : Type} (ps : List (ℕ × α)) (acc : List α)
    (idx : ℕ) (d : α) (h : ∀ p ∈ ps, p.1 ≠ idx) :
    (ps.foldl (fun a q => a.set q.1 q.2) acc).getD idx d = acc.getD idx d := by
  induction ps generalizing acc with
  | nil => rfl
  | cons p pt ih =>
      rw [List.foldl_cons, ih (acc.set p.1 p.2) (fun q hq => h q (List.mem_cons_of_mem _ hq)),
        helper_getD_set_ne _ _ _ _ _ (h p (List.mem_cons_self _ _))]

/-- Helper: a fold of `set` operations preserves the buffer length. -/
theorem helper_foldl_set_length {α : Type} (ps : List (ℕ × α)) (acc : List α) :
    (ps.foldl (fun a q => a.set q.1 q.2) acc).length = acc.length := by
  induction ps generalizing acc with
  | nil => rfl
  | cons p pt ih => rw [List.foldl_cons, ih, List.length_set]

/-- Helper: scattering distinct in-range keys then reading back through the
key at position `m` recovers the `m`-th value. -/
theorem helper_scatter_getD (ks file : List ℕ) (acc : List ℕ) (hnd : ks.Nodup)
    (hlen : file.length = ks.length) (hbound : ∀ k ∈ ks, k < acc.length)
    (m : ℕ) (hm : m < ks.length) :
    ((ks.zip file).foldl (fun a q => a.set q.1 q.2) acc).getD (ks.getD m 0) 0
      = file.getD m 0 := by
  induction ks generalizing file acc m with
  | nil => exact absurd hm (by simp)
  | cons k kt ih =>
      cases file with
      | nil => exact absurd hlen (by simp)
      | cons f ft =>
          rw [List.zip_cons_cons, List.foldl_cons]
          cases m with
          | zero =>
              rw [List.getD_cons_zero]
              have hne : ∀ p ∈ kt.zip ft, p.1 ≠ k := by
                intro p hp
                have hk : p.1 ∈ kt := (List.of_mem_zip hp).1
                intro he
                exact (List.nodup_cons.mp hnd).1 (he ▸ hk)
              rw [helper_foldl_set_untouched _ _ _ _ hne,
                helper_getD_set_self _ _ _ _ (hbound k (List.mem_cons_self _ _))]
              rfl
          | succ m =>
              rw [List.getD_cons_succ, List.getD_cons_succ]
              exact ih ft (acc.set k f) (List.nodup_cons.mp hnd).2
                (by simpa using hlen)
                (fun q hq => by
                  rw [List.length_set]
                  exact hbound q (List.mem_cons_of_mem _ hq))
                m (by simpa using hm)

/-- Helper: gathering through the same distinct, in-range index sequence that
was used to scatter reproduces the original token list. -/
theorem helper_write_read_roundtrip (ks file : List ℕ) (hnd : ks.Nodup)
    (hb : ∀ k ∈ ks, k < ks.length) (hlen : file.length = ks.length) :
    write_element ks (read_element ks file) = file := by
  apply List.ext_getElem
  · simp [write_element, hlen]
  · intro i h1 h2
    have hik : i < ks.length := by simpa [write_element] using h1
    have hsc := helper_scatter_getD ks file (List.replicate ks.length 0) hnd hlen
      (fun k hk => by simpa using hb k hk) i hik
    rw [List.getD_eq_getElem ks 0 hik, List.getD_eq_getElem file 0 h2] at hsc
    simp only [write_element, List.getElem_map, read_element]
    exact hsc

/-- C8: for every 2D element type, writing an element back as VTK CELLS
gathers the stored slots through the same index sequence that the SU2 reader
scattered the file tokens through, and that gather inverts the scatter, so
the emitted node list equals the node list of the input file; for quadratic
serendipity elements that sequence is 0,2,4,6,1,3,5,7 on input and output
alike. -/
theorem C8_su2_vtk_roundtrip :
    (∀ (t : element_2d_t) (file : List ℕ),
      file.length = (su2_read_order t).length →
        write_element (vtk_write_order t) (read_element (su2_read_order t) file) = file) ∧
    su2_read_order .QUADRATIC_SERENDIPITY = [0, 2, 4, 6, 1, 3, 5, 7] ∧
    vtk_write_order .QUADRATIC_SERENDIPITY = [0, 2, 4, 6, 1, 3, 5, 7] := by
  refine ⟨?_, rfl, rfl⟩
  intro t file h
  cases t <;> exact helper_write_read_roundtrip _ file (by decide) (by decide) h

/-- C8 witness: the quadratic serendipity round trip on a concrete eight-node
element. -/
theorem C8_witness :
    write_element (vtk_write_order .QUADRATIC_SERENDIPITY)
      (read_element (su2_read_order .QUADRATIC_SERENDIPITY)
        [10, 11, 12, 13, 14, 15, 16, 17])
      = [10, 11, 12, 13, 14, 15, 16, 17] :=
  C8_su2_vtk_roundtrip.1 .QUADRATIC_SERENDIPITY [10, 11, 12, 13, 14, 15, 16, 17] (by decide)

/-- Helper: a write-if-zero fold leaves a slot at its first nonzero visited
value, or at its initial value when that is nonzero, or at zero. -/
theorem helper_fill_characterization (visits : List (ℕ × ℚ)) (x : List ℚ)
    (hb : ∀ v ∈ visits, v.1 < x.length) (idx : ℕ) (hidx : idx < x.length) :
    (visits.foldl (fun x v => if x.getD v.1 0 = 0 then x.set v.1 v.2 else x) x).getD idx 0
      = if x.getD idx 0 = 0
          then first_nonzero ((visits.filter (fun v => v.1 = idx)).map Prod.snd)
          else x.getD idx 0 := by
  induction visits generalizing x with
  | nil =>
      rw [List.foldl_nil, List.filter_nil, List.map_nil]
      by_cases h : x.getD idx 0 = 0
      · rw [if_pos h, h]
        rfl
      · rw [if_neg h]
  | cons v vs ih =>
      rw [List.foldl_cons]
      by_cases hcond : x.getD v.1 0 = 0
      · rw [if_pos hcond]
        have hlen : (x.set v.1 v.2).length = x.length := x.length_set v.1 v.2
        rw [ih (x.set v.1 v.2)
          (fun w hw => by rw [hlen]; exact hb w (List.mem_cons_of_mem _ hw))
          (by rw [hlen]; exact hidx)]
        by_cases hv1 : v.1 = idx
        · have hx0 : x.getD idx 0 = 0 := hv1 ▸ hcond
          have hset : (x.set v.1 v.2).getD idx 0 = v.2 := by
            rw [hv1]
            exact helper_getD_set_self x idx v.2 0 hidx
          rw [List.filter_cons_of_pos (by simpa using hv1), List.map_cons, hset, hx0,
            if_pos rfl]
          by_cases hv2 : v.2 = 0
          · rw [if_pos hv2]
            simp [first_nonzero, hv2]
          · rw [if_neg hv2]
            simp [first_nonzero, hv2]
        · have hset : (x.set v.1 v.2).getD idx 0 = x.getD idx 0 :=
            helper_getD_set_ne x v.1 idx v.2 0 hv1
          rw [List.filter_cons_of_neg (by simpa using hv1), hset]
      · rw [if_neg hcond]
        rw [ih x (fun w hw => hb w (List.mem_cons_of_mem _ hw)) hidx]
        by_cases hv1 : v.1 = idx
        · have hx0 : ¬ x.getD idx 0 = 0 := hv1 ▸ hcond
          rw [if_neg hx0, if_neg hx0]
        · rw [List.filter_cons_of_neg (by simpa using hv1)]

/-- C5 counterexample: node 0 lies on two first-kind groups; the first group's
function returns 0 and the second group's returns 5. The claim demands the
first group's value 0 regardless of returned values, yet the built vector
holds 5: the write-if-zero guard cannot tell a slot assigned zero from an
untouched slot, so the second group overwrites the first. -/
theorem C5_counterexample_zero_first_group_loses :
    (boundary_condition_first_kind_x 1 1 [group_zero_value, group_five_value]).getD 0 0 = 5 ∧
    group_zero_value.value 0 0 = 0 ∧
    (5 : ℚ) ≠ 0 := by
  refine ⟨?_, rfl, by norm_num⟩
  norm_num [boundary_condition_first_kind_x, fill_dirichlet, first_kind_visits,
    group_zero_value, group_five_value, List.range_succ, List.filterMap_cons,
    List.foldl_cons, List.foldl_nil]

/-- C5 (amended): the Dirichlet value vector is zero except at slots visited
as first-kind boundary DoFs, and an overlapped slot receives the first
nonzero value produced in group-enumeration order: a group whose function
returns zero at the node leaves the slot open for later groups; if every
group returns zero the slot stays zero. -/
theorem C5_amended_first_nonzero_value_wins (DoF len : ℕ)
    (groups : List boundary_group_2d)
    (hb : ∀ v ∈ first_kind_visits DoF groups, v.1 < len) (idx : ℕ) (hidx : idx < len) :
    (boundary_condition_first_kind_x DoF len groups).getD idx 0
      = first_nonzero
          (((first_kind_visits DoF groups).filter (fun v => v.1 = idx)).map Prod.snd) := by
  unfold boundary_condition_first_kind_x fill_dirichlet
  have hzero : (List.replicate len (0 : ℚ)).getD idx 0 = 0 := by
    rw [List.getD_eq_getElem _ _ (by simpa using hidx)]
    simp
  rw [helper_fill_characterization _ _ (fun v hv => by simpa using hb v hv) idx
    (by simpa using hidx), hzero, if_pos rfl]

/-- C5 witness: the amended characterization evaluated on the concrete
overlapping groups: the slot receives 5, the first nonzero of the visited
values (0 then 5). -/
theorem C5_witness :
    (boundary_condition_first_kind_x 1 1 [group_zero_value, group_five_value]).getD 0 0
      = first_nonzero
          (((first_kind_visits 1 [group_zero_value, group_five_value]).filter
              (fun v => v.1 = 0)).map Prod.snd) :=
  C5_amended_first_nonzero_value_wins 1 1 [group_zero_value, group_five_value]
    (by
      intro v hv
      simp only [first_kind_visits, group_zero_value, group_five_value,
        List.flatMap_cons, List.flatMap_nil, List.filterMap_cons, List.filterMap_nil,
        List.range_succ, List.range_zero, List.append_nil, List.nil_append] at hv
      norm_num at hv
      rcases hv with hv | hv <;> subst hv <;> norm_num)
    0 (by norm_num)

/-- C6 counterexample: in the elasticity assembly a single interior bilinear
element stores the pair (row, col) = (2, 0) into the main matrix, and 2 ≤ 0
fails: the elasticity path keeps the lower triangle (`row >= col`), not the
upper triangle the claim asserts for every assembly path. -/
theorem C6_counterexample_elastic_stores_lower :
    ((2, 0) ∈ elastic_element_inner_entries (fun _ => true) [0, 1, 2, 3]) ∧
    ¬ ((2 : ℕ) ≤ 0) := by
  constructor <;> decide

/-- C6 (amended): the heat-path indexer stores only upper-triangular entries
in `K_inner` (`row ≤ col`), and `sort_indices` leaves every row's column
list sorted ascending; the elasticity path of `static_analysis.cpp` instead
keeps the lower triangle: every pair it stores, in either of its two
matrices, satisfies `col ≤ row`. -/
theorem C6_amended_triangular_storage :
    (∀ (inner_nodes : ℕ → Bool) (row col : ℕ),
      indexator_route inner_nodes row col = some .inner → row ≤ col) ∧
    (∀ (K : List (List ℕ)), ∀ r ∈ sort_indices K, List.Sorted (· ≤ ·) r) ∧
    (∀ (inner_nodes : ℕ → Bool) (row col : ℕ) (t : MatrixTarget),
      elastic_route inner_nodes row col = some t → col ≤ row) ∧
    (∀ (inner_nodes : ℕ → Bool) (node_numbers : List ℕ) (rc : ℕ × ℕ),
      rc ∈ elastic_element_inner_entries inner_nodes node_numbers → rc.2 ≤ rc.1) := by
  have hroute : ∀ (inner_nodes : ℕ → Bool) (row col : ℕ) (t : MatrixTarget),
      elastic_route inner_nodes row col = some t → col ≤ row := by
    intro inn row col t h
    unfold elastic_route at h
    by_cases hge : row ≥ col
    · exact hge
    · rw [if_neg hge] at h
      exact absurd h (by simp)
  refine ⟨?_, ?_, hroute, ?_⟩
  · intro inn row col h
    unfold indexator_route at h
    by_cases h1 : inn row && inn col
    · rw [if_pos h1] at h
      by_cases h2 : row ≤ col
      · exact h2
      · rw [if_neg h2] at h
        exact absurd h (by simp)
    · rw [if_neg h1] at h
      by_cases h3 : row ≠ col
      · rw [if_pos h3] at h
        by_cases h4 : !inn col
        · rw [if_pos h4] at h
          exact absurd h (by simp)
        · rw [if_neg h4] at h
          exact absurd h (by simp)
      · push_neg at h3
        exact le_of_eq h3
  · intro K r hr
    simp only [sort_indices, List.mem_map] at hr
    obtain ⟨l, _, rfl⟩ := hr
    exact List.sorted_insertionSort _ l
  · intro inn nns rc hrc
    simp only [elastic_element_inner_entries, List.mem_flatMap, List.mem_filterMap,
      List.mem_range] at hrc
    obtain ⟨i, _, j, _, proj, _, form, _, hif⟩ := hrc
    by_cases hroute2 : elastic_route inn (2 * nns.getD i 0 + proj) (2 * nns.getD j 0 + form)
        = some .inner
    · rw [if_pos hroute2] at hif
      obtain rfl := Option.some.injEq _ _ ▸ hif
      have := hroute inn _ _ _ hroute2
      simpa using this
    · rw [if_neg hroute2] at hif
      exact absurd hif (by simp)

/-- C6 witness: the lower-triangle clause of the amended statement applied to
the stored elasticity pair (2, 0). -/
theorem C6_witness : (0 : ℕ) ≤ 2 :=
  C6_amended_triangular_storage.2.2.2 (fun _ => true) [0, 1, 2, 3] (2, 0) (by decide)

/-- Helper: the inner quadrature write loop preserves the buffer length. -/
theorem helper_wee_length {V : Type} (entry : ℕ → V) (offset : ℕ) :
    ∀ (qn : ℕ) (buf : List V),
      (write_element_entries entry offset qn buf).length = buf.length := by
  intro qn
  induction qn with
  | zero => intro buf; rfl
  | succ q ih =>
      intro buf
      rw [write_element_entries, List.length_set, ih]

/-- Helper: the inner quadrature write loop does not touch positions below
its offset. -/
theorem helper_wee_below {V : Type} (entry : ℕ → V) (offset : ℕ) (d : V) :
    ∀ (qn : ℕ) (buf : List V) (p : ℕ), p < offset →
      (write_element_entries entry offset qn buf).getD p d = buf.getD p d := by
  intro qn
  induction qn with
  | zero => intro buf p _; rfl
  | succ q ih =>
      intro buf p hp
      rw [write_element_entries,
        helper_getD_set_ne _ _ _ _ _ (by omega : offset + q ≠ p), ih buf p hp]

/-- Helper: when all its writes fit in the buffer, the inner quadrature write
loop stores entry `i` at position `offset + i`. -/
theorem helper_wee_at {V : Type} (entry : ℕ → V) (offset : ℕ) (d : V) :
    ∀ (qn : ℕ) (buf : List V) (i : ℕ), i < qn → offset + qn ≤ buf.length →
      (write_element_entries entry offset qn buf).getD (offset + i) d = entry i := by
  intro qn
  induction qn with
  | zero => intro buf i hi _; exact absurd hi (by omega)
  | succ q ih =>
      intro buf i hi hlen
      rw [write_element_entries]
      by_cases hiq : i = q
      · subst hiq
        exact helper_getD_set_self _ _ _ _
          (by rw [helper_wee_length]; omega)
      · rw [helper_getD_set_ne _ _ _ _ _ (by omega : offset + q ≠ offset + i)]
        exact ih buf i (by omega) (by omega)

/-- Helper: the shift list has one entry per element plus one. -/
theorem helper_shifts_length :
    ∀ (els : List element_2d_model) (a : ℕ), (shifts_from a els).length = els.length + 1 := by
  intro els
  induction els with
  | nil => intro a; rfl
  | cons e rest ih => intro a; simp [shifts_from, ih]

/-- Helper: the shift list starts at its accumulator. -/
theorem helper_shifts_head :
    ∀ (els : List element_2d_model) (a : ℕ), (shifts_from a els).getD 0 0 = a := by
  intro els a
  cases els <;> rfl

/-- Helper: each shift exceeds the previous one by the element's quadrature
node count. -/
theorem helper_shifts_step :
    ∀ (els : List element_2d_model) (a i : ℕ), i < els.length →
      (shifts_from a els).getD (i + 1) 0
        = (shifts_from a els).getD i 0 + (els.getD i element_2d_dflt).qnodes_count := by
  intro els
  induction els with
  | nil => intro a i hi; exact absurd hi (by simp)
  | cons e rest ih =>
      intro a i hi
      cases i with
      | zero =>
          rw [shifts_from]
          rw [List.getD_cons_succ, List.getD_cons_zero, helper_shifts_head]
          rfl
      | succ i =>
          rw [shifts_from, List.getD_cons_succ, List.getD_cons_succ, List.getD_cons_succ]
          exact ih (a + e.qnodes_count) i (by simpa using hi)

/-- Helper: the last shift is the accumulator plus the total quadrature node
count. -/
theorem helper_shifts_last :
    ∀ (els : List element_2d_model) (a : ℕ),
      (shifts_from a els).getD els.length 0
        = a + ((els.map fun e => e.qnodes_count).sum) := by
  intro els
  induction els with
  | nil => intro a; simp [shifts_from]
  | cons e rest ih =>
      intro a
      rw [shifts_from, List.length_cons, List.getD_cons_succ, ih, List.map_cons,
        List.sum_cons]
      ring

/-- Helper: under the canonical step relation the shifts are monotone over a
block of elements. -/
theorem helper_shifts_mono (shifts : List ℕ) :
    ∀ (els : List element_2d_model) (k : ℕ),
      (∀ i, i < els.length →
        shifts.getD (k + i + 1) 0
          = shifts.getD (k + i) 0 + (els.getD i element_2d_dflt).qnodes_count) →
      shifts.getD k 0 ≤ shifts.getD (k + els.length) 0 := by
  intro els
  induction els with
  | nil => intro k _; simp
  | cons e rest ih =>
      intro k hcan
      have h0 := hcan 0 (by simp)
      have hcanr : ∀ i, i < rest.length →
          shifts.getD (k + 1 + i + 1) 0
            = shifts.getD (k + 1 + i) 0 + (rest.getD i element_2d_dflt).qnodes_count := by
        intro i hi
        have e1 : k + 1 + i = k + (i + 1) := by omega
        rw [e1]
        have := hcan (i + 1) (by simpa using Nat.succ_lt_succ hi)
        simpa using this
      have hrest := ih (k + 1) hcanr
      have e3 : k + 1 + rest.length = k + (e :: rest).length := by
        simp only [List.length_cons]
        omega
      rw [e3] at hrest
      have hk01 : shifts.getD k 0 ≤ shifts.getD (k + 1) 0 := by
        have := hcan 0 (by simp)
        simp only [Nat.add_zero] at this
        omega
      exact hk01.trans hrest

/-- Helper: the outer element loop writes every element's entries at its
shift offset, does not touch positions below the current offset, and keeps
the buffer length; valid under the canonical step relation and a buffer
large enough for the block. -/
theorem helper_write_elements_spec {V : Type} (d : V)
    (entry : element_2d_model → ℕ → V) (shifts : List ℕ) :
    ∀ (els : List element_2d_model) (k : ℕ) (buf : List V),
      (∀ i, i < els.length →
        shifts.getD (k + i + 1) 0
          = shifts.getD (k + i) 0 + (els.getD i element_2d_dflt).qnodes_count) →
      shifts.getD (k + els.length) 0 ≤ buf.length →
      ((write_elements entry shifts els k buf).length = buf.length) ∧
      (∀ p, p < shifts.getD k 0 →
        (write_elements entry shifts els k buf).getD p d = buf.getD p d) ∧
      (∀ i, i < els.length →
        ∀ q, q < (els.getD i element_2d_dflt).qnodes_count →
          (write_elements entry shifts els k buf).getD (shifts.getD (k + i) 0 + q) d
            = entry (els.getD i element_2d_dflt) q) := by
  intro els
  induction els with
  | nil =>
      intro k buf _ _
      refine ⟨rfl, fun p _ => rfl, fun i hi => absurd hi (by simp)⟩
  | cons e rest ih =>
      intro k buf hcan hlen
      have h0 : shifts.getD (k + 1) 0 = shifts.getD k 0 + e.qnodes_count := by
        have := hcan 0 (by simp)
        simpa using this
      have hcanr : ∀ i, i < rest.length →
          shifts.getD (k + 1 + i + 1) 0
            = shifts.getD (k + 1 + i) 0 + (rest.getD i element_2d_dflt).qnodes_count := by
        intro i hi
        have e1 : k + 1 + i = k + (i + 1) := by omega
        rw [e1]
        have := hcan (i + 1) (by simpa using Nat.succ_lt_succ hi)
        simpa using this
      have hb1len : (write_element_entries (entry e) (shifts.getD k 0) e.qnodes_count buf).length
          = buf.length := helper_wee_length _ _ _ _
      have hlenr : shifts.getD (k + 1 + rest.length) 0
          ≤ (write_element_entries (entry e) (shifts.getD k 0) e.qnodes_count buf).length := by
        rw [hb1len]
        have e3 : k + 1 + rest.length = k + (e :: rest).length := by
          simp only [List.length_cons]
          omega
        rw [e3]
        exact hlen
      obtain ⟨ihlen, ihunt, ihpos⟩ := ih (k + 1)
        (write_element_entries (entry e) (shifts.getD k 0) e.qnodes_count buf) hcanr hlenr
      have hmono : shifts.getD (k + 1) 0 ≤ shifts.getD (k + 1 + rest.length) 0 :=
        helper_shifts_mono shifts rest (k + 1) hcanr
      have hfit : shifts.getD k 0 + e.qnodes_count ≤ buf.length := by
        rw [← h0]
        have e3 : k + 1 + rest.length = k + (e :: rest).length := by
          simp only [List.length_cons]
          omega
        exact hmono.trans (e3 ▸ hlen)
      rw [write_elements]
      refine ⟨ihlen.trans hb1len, ?_, ?_⟩
      · intro p hp
        rw [ihunt p (by omega), helper_wee_below _ _ _ _ _ _ hp]
      · intro i hi q hq
        cases i with
        | zero =>
            simp only [List.getD_cons_zero] at hq ⊢
            simp only [Nat.add_zero]
            rw [ihunt _ (by omega), helper_wee_at _ _ _ _ _ _ hq hfit]
        | succ i =>
            simp only [List.getD_cons_succ] at hq ⊢
            have e4 : k + (i + 1) = k + 1 + i := by omega
            rw [e4]
            exact ihpos i (by simpa using hi) q hq

/-- C7: the per-quadrature geometry precomputations raise an error if and
only if the supplied shift vector's size differs from `elements_count + 1`
(both the quadrature-coordinate and the Jacobi-matrix precomputation share
this shape); and with the canonical quadrature shifts they return, without
error, a vector whose length is the last shift — the total quadrature node
count — holding each element's entries at its shift offset. -/
theorem C7_approx_error_iff_and_placement :
    (∀ (V : Type) (init : V) (mesh : mesh_2d_model) (shifts : List ℕ)
        (entry : element_2d_model → ℕ → V),
      (approx_in_all_quad_nodes init mesh shifts entry).isOk = false
        ↔ mesh.elements.length + 1 ≠ shifts.length) ∧
    (∀ (mesh : mesh_2d_model) (shifts : List ℕ),
      approx_all_quad_nodes mesh shifts
        = approx_in_all_quad_nodes (0, 0) mesh shifts (element_quad_coord mesh)) ∧
    (∀ (mesh : mesh_2d_model) (shifts : List ℕ),
      approx_all_jacobi_matrices mesh shifts
        = approx_in_all_quad_nodes ((0, 0), (0, 0)) mesh shifts (element_jacobi_matrix mesh)) ∧
    (∀ (V : Type) (d init : V) (mesh : mesh_2d_model)
        (entry : element_2d_model → ℕ → V) (out : List V),
      approx_in_all_quad_nodes init mesh (quadrature_shifts_init mesh) entry = .ok out →
        out.length
            = (quadrature_shifts_init mesh).getD mesh.elements.length 0 ∧
        (quadrature_shifts_init mesh).getD mesh.elements.length 0
            = (mesh.elements.map fun e => e.qnodes_count).sum ∧
        ∀ el, el < mesh.elements.length →
          ∀ q, q < (mesh.elements.getD el element_2d_dflt).qnodes_count →
            out.getD ((quadrature_shifts_init mesh).getD el 0 + q) d
              = entry (mesh.elements.getD el element_2d_dflt) q) := by
  refine ⟨?_, fun mesh shifts => rfl, fun mesh shifts => rfl, ?_⟩
  · intro V init mesh shifts entry
    unfold approx_in_all_quad_nodes
    by_cases hc : mesh.elements.length + 1 ≠ shifts.length
    · rw [if_pos hc]
      exact iff_of_true rfl hc
    · rw [if_neg hc]
      exact iff_of_false (by simp [Except.isOk, Except.toBool]) hc
  · intro V d init mesh entry out hok
    have hS : (quadrature_shifts_init mesh).length = mesh.elements.length + 1 :=
      helper_shifts_length mesh.elements 0
    have hlast : (quadrature_shifts_init mesh).getD mesh.elements.length 0
        = (mesh.elements.map fun e => e.qnodes_count).sum := by
      have := helper_shifts_last mesh.elements 0
      simpa [quadrature_shifts_init] using this
    unfold approx_in_all_quad_nodes at hok
    rw [if_neg (by rw [hS]; simp)] at hok
    simp only [Except.ok.injEq] at hok
    subst hok
    have hbuflen : (List.replicate
        ((quadrature_shifts_init mesh).getD ((quadrature_shifts_init mesh).length - 1) 0)
        init).length = (quadrature_shifts_init mesh).getD mesh.elements.length 0 := by
      rw [List.length_replicate, hS]
      norm_num
    have hcan : ∀ i, i < mesh.elements.length →
        (quadrature_shifts_init mesh).getD (0 + i + 1) 0
          = (quadrature_shifts_init mesh).getD (0 + i) 0
            + (mesh.elements.getD i element_2d_dflt).qnodes_count := by
      intro i hi
      simp only [Nat.zero_add]
      exact helper_shifts_step mesh.elements 0 i hi
    have hlen : (quadrature_shifts_init mesh).getD (0 + mesh.elements.length) 0
        ≤ (List.replicate
            ((quadrature_shifts_init mesh).getD ((quadrature_shifts_init mesh).length - 1) 0)
            init).length := by
      rw [hbuflen]
      simp
    obtain ⟨hl, _, hpos⟩ := helper_write_elements_spec d entry (quadrature_shifts_init mesh)
      mesh.elements 0 _ hcan hlen
    refine ⟨?_, hlast, ?_⟩
    · rw [hl, hbuflen]
    · intro el hel q hq
      have := hpos el hel q hq
      simpa using this

/-- C7 witness: on a concrete two-element mesh (one and two quadrature
nodes), the precomputation succeeds with the three-entry vector
[10, 20, 21] and the second element's entry for its second quadrature node
sits at its shift offset plus one. -/
theorem C7_witness :
    ([10, 20, 21] : List ℕ).getD
        ((quadrature_shifts_init mesh_two_elements).getD 1 0 + 1) 0
      = (fun (e : element_2d_model) (q : ℕ) => e.qnodes_count * 10 + q)
          (mesh_two_elements.elements.getD 1 element_2d_dflt) 1 :=
  (C7_approx_error_iff_and_placement.2.2.2 ℕ 0 0 mesh_two_elements
      (fun e q => e.qnodes_count * 10 + q) [10, 20, 21] rfl).2.2
    1 (by decide) 1 (by decide)

/-- C3: evidence of the 1D divergence. On a one-element linear mesh with a
first-kind condition at the left end, conductivity 3 and local weight 1, the
symbolic portrait reserves exactly one (diagonal) slot for row 0, yet the
numeric pass — whose Dirichlet separation is commented out — accumulates the
raw local integral 3 on the diagonal instead of forcing 1, and accumulates
the nonzero off-diagonal coupling -3 at (0, 1), a slot the portrait never
reserved. The 2D paths do route Dirichlet rows to an identity row. -/
theorem C3_1d_dirichlet_row_not_identity :
    (portrait_row_counts 1 2 2 (fun e => e + 1) true false false).getD 1 0 = 1 ∧
    calc_matrix_local_contribution 1 2 heat_rule_loc 0 0 = 3 ∧
    calc_matrix_local_contribution 1 2 heat_rule_loc 0 1 = -3 ∧
    ((3 : ℚ) ≠ 1 ∧ (-3 : ℚ) ≠ 0) := by
  refine ⟨by decide, ?_, ?_, by norm_num⟩
  · norm_num [calc_matrix_local_contribution, node_elements_1d, heat_rule_loc,
      integrate_loc, linear_el_one_q, element_1d_set, quad_one_node, linear_Nxi,
      element_1d_integrate.qnodes_count, element_1d_integrate.weight,
      element_1d_integrate.qNxi, List.range_succ, List.filterMap_cons,
      List.flatMap_cons, List.flatMap_nil]
  · norm_num [calc_matrix_local_contribution, node_elements_1d, heat_rule_loc,
      integrate_loc, linear_el_one_q, element_1d_set, quad_one_node, linear_Nxi,
      element_1d_integrate.qnodes_count, element_1d_integrate.weight,
      element_1d_integrate.qNxi, List.range_succ, List.filterMap_cons,
      List.flatMap_cons, List.flatMap_nil]

end Nonlocal
